import Mathlib

/-!
Shallow embedding of the mcla analysis engine (package mcla, analyzer source
file): the score computation `Analyzer.DoError`, the TTL-cached signature
store (`Analyzer.UpdateErrors` / `updateErrorsLocked` / `getErrors`), the
per-error cause-chain walk of `Analyzer.DoLogStream`, and the mixin log
recorder (`logRecorder.record` with its regular expression and the
capacity-64 ring buffer).

Scores are modelled as rationals; the Go code computes them in `float32`
with the same literal formulas (0.1, 0.05, 10.0/100, 0.9), all of which are
exact in the claims under scrutiny.
-/

/-- Modelled from the spec: a ParsedError (`JavaError` in the Go code; its
struct declaration is not under src/, only its uses). `Class` is the dotted
class name, `Message` the multi-line message, `CausedBy` the optional next
error of the singly linked cause chain (outermost error first). -/
inductive JavaError : Type where
  | mk : String → String → Option JavaError → JavaError

def JavaError.Class : JavaError → String
  | .mk c _ _ => c

def JavaError.Message : JavaError → String
  | .mk _ m _ => m

def JavaError.CausedBy : JavaError → Option JavaError
  | .mk _ _ cb => cb

/-- Modelled from the spec: an ErrorSignature (`ErrorDesc` in the Go code;
its struct declaration is not under src/). `Error` is the dotted error key
(optionally wildcarded with `*`), `Message` the message template (empty
string means "ignore message"). Downstream presentation metadata is
irrelevant to the claims and omitted. -/
structure ErrorDesc where
  Error : String
  Message : String
deriving DecidableEq

/-- A candidate match: a signature plus its computed score (source type
`SolutionPossibility`, field `Match` of type float32, modelled as ℚ). -/
structure SolutionPossibility where
  ErrorDesc : ErrorDesc
  Match : ℚ
deriving DecidableEq

/-- Finds the split of a character list at the LAST occurrence of `b`;
`none` when `b` does not occur. -/
def lastSplitAux (b : Char) : List Char → Option (List Char × List Char)
  | [] => none
  | c :: cs =>
    match lastSplitAux b cs with
    | some (p, q) => some (c :: p, q)
    | none => if c = b then some ([], cs) else none

/-- Modelled from the spec: the helper `rsplit(s, b)` used by `DoError` is
not under src/. Splits at the last occurrence of the separator; a key with
no separator has an empty package-prefix: `rsplit s b = ("", s)`. -/
def rsplit (s : String) (b : Char) : String × String :=
  match lastSplitAux b s.toList with
  | some (p, q) => (String.mk p, String.mk q)
  | none => ("", s)

/-- Finds the split of a character list at the FIRST occurrence of `b`. -/
def firstSplitAux (b : Char) : List Char → Option (List Char × List Char)
  | [] => none
  | c :: cs =>
    if c = b then some ([], cs)
    else
      match firstSplitAux b cs with
      | some (p, q) => some (c :: p, q)
      | none => none

/-- Modelled from the spec: the helper `split(s, b)` used by `DoError` is
not under src/. Splits at the first occurrence of the separator; with no
separator the whole string is the first component. `DoError` uses it to
take the first line of the error message. -/
def split (s : String) (b : Char) : String × String :=
  match firstSplitAux b s.toList with
  | some (p, q) => (String.mk p, String.mk q)
  | none => (s, "")

/-- One iteration of the `DoError` signature loop: the final value of
`sol.Match` computed for signature `e` against error `jerr`.
`lineMatchPercent` is the external fuzzy line-matching collaborator
(out of scope per the spec; abstracted as a parameter). Mirrors:
type weight 10% (or 5% on package mismatch), `Match /= 10.0/100` when the
template is empty, otherwise `Match = matches` when the error type is
ignored, else `Match += matches * 0.9`. -/
def scoreOf (lineMatchPercent : String → String → ℚ) (jerr : JavaError)
    (e : ErrorDesc) : ℚ :=
  let ep := rsplit jerr.Class '.'
  let ep2 := rsplit e.Error '.'
  let ignoreErrorTyp := ep2.2 = "" ∨ ep2.2 = "*"
  let m0 : ℚ :=
    if ¬ignoreErrorTyp ∧ ep2.2 = ep.2 then
      if ep2.1 = "*" ∨ ep.1 = ep2.1 then 1 / 10 else 1 / 20
    else 0
  if e.Message = "" then
    m0 / (10 / 100)
  else
    let jemsg := (split jerr.Message '\n').1
    let mtch := lineMatchPercent jemsg e.Message
    if ignoreErrorTyp then mtch else m0 + mtch * (9 / 10)

/-- A Go slice of candidates: `none` is the nil slice, `some l` a non-nil
slice holding `l`. -/
abbrev GoSlice := Option (List SolutionPossibility)

/-- Go `append` on a candidate slice: appending to the nil slice allocates
a fresh non-nil slice. -/
def goAppend (m : GoSlice) (x : SolutionPossibility) : GoSlice :=
  match m with
  | none => some [x]
  | some l => some (l ++ [x])

/-- The `for _, e := range a.getErrors()` loop of `DoError`: appends the
candidate for each signature whose computed match is nonzero. -/
def doErrorLoop (lineMatchPercent : String → String → ℚ) (jerr : JavaError) :
    List ErrorDesc → GoSlice → GoSlice
  | [], m => m
  | e :: es, m =>
    let s := scoreOf lineMatchPercent jerr e
    doErrorLoop lineMatchPercent jerr es
      (if s ≠ 0 then goAppend m ⟨e, s⟩ else m)

/-- `Analyzer.DoError`: the hardcoded check collaborator (external; its
error component is discarded by `e, _ := a.HardCodedChecks(jerr)`) may
short-circuit with a single score-1 candidate; otherwise the signature loop
runs and a nil result slice is replaced by a fresh empty one. The second
component is the returned `err`, which is never assigned. -/
def doError (lineMatchPercent : String → String → ℚ)
    (hardCodedChecks : JavaError → Option ErrorDesc × Option String)
    (cachedErrors : List ErrorDesc) (jerr : JavaError) :
    GoSlice × Option String :=
  match (hardCodedChecks jerr).1 with
  | some e => (some [⟨e, 1⟩], none)
  | none =>
    match doErrorLoop lineMatchPercent jerr cachedErrors none with
    | none => (some [], none)
    | some l => (some l, none)

/-- The list held by a Go candidate slice (nil holds the empty list). -/
def sliceList (m : GoSlice) : List SolutionPossibility := m.getD []

/-- The `Analyzer` state touched by the signature store: the timestamp of
the last successful refresh (`lastUpdateErr`, `none` for Go's zero time)
and the cached signature set. `fetchCount` counts calls into
`DB.ForEachErrors` — the spec's "fetch counter on a fake repository"; it is
a probe of the model, not program state. Time is modelled in seconds. -/
structure StoreState where
  lastUpdateErr : Option ℕ
  cachedErrors : List ErrorDesc
  fetchCount : ℕ
deriving DecidableEq

/-- The repository collaborator `DB.ForEachErrors`: one call either
enumerates the full signature set or fails with an error. -/
abbrev ErrDB := Except String (List ErrorDesc)

/-- `Analyzer.updateErrorsLocked`: on collaborator failure the error is
returned and neither the cached set nor the timestamp changes; on success
the set is replaced wholesale and the timestamp is set to now. -/
def updateErrorsLocked (now : ℕ) (db : ErrDB) (s : StoreState) :
    Option String × StoreState :=
  match db with
  | .error e => (some e, { s with fetchCount := s.fetchCount + 1 })
  | .ok l =>
      (none,
       { lastUpdateErr := some now, cachedErrors := l,
         fetchCount := s.fetchCount + 1 })

/-- The staleness check of `getErrors`: never refreshed, or the last
refresh lies more than one hour (3600 s) in the past
(`time.Now().After(a.lastUpdateErr.Add(time.Hour))`). -/
def needUpdate (now : ℕ) (s : StoreState) : Bool :=
  match s.lastUpdateErr with
  | none => true
  | some t => decide (t + 3600 < now)

/-- The body of `getErrors` that runs under the exclusive lock: re-check
staleness, then refresh, discarding the error `updateErrorsLocked`
returns. -/
def lockedRefreshCheck (now : ℕ) (db : ErrDB) (s : StoreState) : StoreState :=
  if needUpdate now s then (updateErrorsLocked now db s).2 else s

/-- `Analyzer.getErrors`: double-checked staleness (read-locked check, then
the re-check under the exclusive lock), refresh error discarded, cached
set returned. Both checks see the same `now` (one `get()` call). -/
def getErrors (now : ℕ) (db : ErrDB) (s : StoreState) :
    List ErrorDesc × StoreState :=
  if needUpdate now s then
    let s2 := lockedRefreshCheck now db s
    (s2.cachedErrors, s2)
  else (s.cachedErrors, s)

/-- A sequence of `n` callers each executing the locked section of
`getErrors` in turn: the RWMutex serializes the exclusive sections, so any
concurrent schedule of the locked sections is some such sequence (the
read-locked pre-check only decides whether a caller enters; running every
caller's locked section over-approximates the behaviours). All callers
share one instant `now` ("issued concurrently"). -/
def runGetters (now : ℕ) (db : ErrDB) : ℕ → StoreState → StoreState
  | 0, s => s
  | n + 1, s => runGetters now db n (lockedRefreshCheck now db s)

/-- One emitted result of the stream pipeline (source type `ErrorResult`):
one parsed error plus its candidate slice. The `File` field is never set by
`DoLogStream` and is omitted. -/
structure ErrorResult where
  Error : JavaError
  Matched : GoSlice

/-- The cause chain of an error, outermost first (the spec's "ordered
sequence from an outer error to its root cause"). -/
def chainList : JavaError → List JavaError
  | .mk c m none => [.mk c m none]
  | .mk c m (some j) => .mk c m (some j) :: chainList j

/-- The body of the per-error goroutine of `DoLogStream` (the
`for jerr != nil` loop) on the cancellation-free path where every send on
the result channel succeeds: returns the results sent in order, plus the
cause passed to `cancel` if `DoError` ever returns an error (in which case
the walk stops before sending the current result). -/
def processChain (lineMatchPercent : String → String → ℚ)
    (hardCodedChecks : JavaError → Option ErrorDesc × Option String)
    (cachedErrors : List ErrorDesc) :
    JavaError → List ErrorResult × Option String
  | .mk c m cb =>
    let dres := doError lineMatchPercent hardCodedChecks cachedErrors
      (.mk c m cb)
    match dres.2 with
    | some e => ([], some e)
    | none =>
      let res : ErrorResult := ⟨.mk c m cb, dres.1⟩
      match cb with
      | none => ([res], none)
      | some j2 =>
        let r := processChain lineMatchPercent hardCodedChecks cachedErrors j2
        (res :: r.1, r.2)

/-- Phase of one spawned scoring goroutine of `DoLogStream`, reduced to its
interaction with the result channel: it has computed a result and is at the
`select { case result <- res: ... case <-ctx.Done(): return }` point
(`readyToSend`), it delivered the send (`done`), it took the
`<-ctx.Done()` arm and returned (`sawCancel`), or it attempted a send on
the already-closed channel, which panics in Go (`panicked`). -/
inductive TaskState : Type where
  | readyToSend
  | done
  | sawCancel
  | panicked
deriving DecidableEq

/-- Shared state of one `DoLogStream` session: whether `close(result)` has
run, whether the session context is cancelled, whether the main goroutine
has returned, and the spawned scoring tasks. -/
structure PipeState where
  resultClosed : Bool
  ctxCancelled : Bool
  mainReturned : Bool
  tasks : List TaskState
deriving DecidableEq

/-- One scheduler step of the `DoLogStream` session. -/
inductive PipeStep : Type where
  | recvError
  | recvTokErr
  | finishStream
  | taskSend (i : ℕ)
  | taskSeeCancel (i : ℕ)

/-- Small-step interpreter for `DoLogStream`'s goroutine structure.
`recvError`: the main select receives a discovered error from `resCh`,
does `wg.Add(1)` and spawns a scoring task (which computes its result —
`DoError` cannot fail — and reaches its send select).
`recvTokErr`: the main select receives the tokenizer's terminal error:
`cancel(err)` then `return`, which runs the deferred `close(result)` —
this path does NOT pass through the `wg.Wait()` after the loop.
`finishStream`: the nil sentinel arrives, the loop breaks, `wg.Wait()`
blocks until every task is settled, then the deferred close runs.
`taskSend i`: task `i` delivers its send — a panic if the channel is
already closed (the buffered capacity only affects blocking, not this).
`taskSeeCancel i`: task `i` takes the `<-ctx.Done()` arm. -/
def pipeStep (s : PipeState) : PipeStep → PipeState
  | .recvError =>
    if s.mainReturned then s
    else { s with tasks := s.tasks ++ [.readyToSend] }
  | .recvTokErr =>
    if s.mainReturned then s
    else { s with ctxCancelled := true, mainReturned := true,
                  resultClosed := true }
  | .finishStream =>
    if s.mainReturned then s
    else if s.tasks.all fun t => t == .done || t == .sawCancel then
      { s with mainReturned := true, resultClosed := true }
    else s
  | .taskSend i =>
    match s.tasks.get? i with
    | some .readyToSend =>
      { s with tasks :=
          s.tasks.set i (if s.resultClosed then .panicked else .done) }
    | _ => s
  | .taskSeeCancel i =>
    match s.tasks.get? i with
    | some .readyToSend =>
      if s.ctxCancelled then { s with tasks := s.tasks.set i .sawCancel }
      else s
    | _ => s

/-- Runs a schedule from a state. -/
def runPipe (s : PipeState) (steps : List PipeStep) : PipeState :=
  steps.foldl pipeStep s

/-- The session state at entry of the `DoLogStream` goroutine. -/
def pipeInit : PipeState := ⟨false, false, false, []⟩

/-- The claimed closing discipline: once the result channel is closed,
every spawned task has completed or observed cancellation. -/
def closedAfterSettled (s : PipeState) : Prop :=
  s.resultClosed = true → ∀ t ∈ s.tasks, t = TaskState.done ∨ t = TaskState.sawCancel

/-- The claimed send discipline: no task ever attempted a send on the
closed channel. -/
def noSendOnClosed (s : PipeState) : Prop :=
  TaskState.panicked ∉ s.tasks

/-- Whitespace class of Go's regexp `\s`: `[\t\n\f\r ]`. -/
def isGoSpace (c : Char) : Bool :=
  c = '\t' || c = '\n' || c = '\x0c' || c = '\r' || c = ' '

/-- Consumes a bracket body: the characters before the first `]` (regexp
piece `[^\]]*\]`), returning body and remainder; fails without `]`. -/
def takeToRBracket : List Char → Option (List Char × List Char)
  | [] => none
  | c :: cs =>
    if c = ']' then some ([], cs)
    else
      match takeToRBracket cs with
      | some (p, q) => some (c :: p, q)
      | none => none

/-- Consumes one expected literal character. -/
def expectChar (c : Char) : List Char → Option (List Char)
  | [] => none
  | x :: xs => if x = c then some xs else none

/-- Consumes an expected literal string (the `mixin/` part). -/
def expectLit : List Char → List Char → Option (List Char)
  | [], r => some r
  | _ :: _, [] => none
  | p :: ps, x :: xs => if x = p then expectLit ps xs else none

/-- The trailing regexp piece `\s*(.+)$` under leftmost-first (greedy)
semantics: maximal whitespace is skipped as long as at least one character
remains for the capture, and the capture — which runs to the end of the
line — must contain no newline (`.` does not match one). When the
remainder is all whitespace, the greedy star backs off to leave exactly
its last character as the capture. -/
def capturePayload (t : List Char) : Option (List Char) :=
  let p := t.dropWhile isGoSpace
  if p = [] then
    match t.getLast? with
    | none => none
    | some ch => if ch = '\n' then none else some [ch]
  else if '\n' ∈ p then none else some p

/-- The anchored mixin log regexp of `logRecorder.record`,
`^\[[^\]]*\]\s*\[[^\]]*\]\s*\[mixin/[^\]]*\]:\s*(.+)$`, as a deterministic
matcher returning the capture group. Except for the final `\s*(.+)$`
(handled by `capturePayload`), every piece of the pattern is
deterministic: a bracket body cannot cross `]`, and the character after a
skipped whitespace run is forced to `[` or the match fails. -/
def mixinMatchL (l : List Char) : Option (List Char) := do
  let r1 ← expectChar '[' l
  let (_, r2) ← takeToRBracket r1
  let r3 ← expectChar '[' (r2.dropWhile isGoSpace)
  let (_, r4) ← takeToRBracket r3
  let r5 ← expectChar '[' (r4.dropWhile isGoSpace)
  let r6 ← expectLit "mixin/".toList r5
  let (_, r7) ← takeToRBracket r6
  let r8 ← expectChar ':' r7
  capturePayload r8

/-- `mixinLogRe.FindSubmatch` on one line: the payload capture, if the
line matches. -/
def mixinLogMatch (s : String) : Option String :=
  (mixinMatchL s.toList).map String.mk

/-- Modelled from the spec: the ring buffer `ringbuf.RingBuffer[string]`
comes from an external package not under src/. A fixed ring of capacity
64 (`NewAnalyzer` passes 64): pushing onto a full ring evicts the oldest
entry. Represented as the retained lines, oldest first. -/
def ringPush (rb : List String) (x : String) : List String :=
  if rb.length < 64 then rb ++ [x] else rb.drop 1 ++ [x]

/-- Pushes a sequence of lines in order. -/
def ringPushAll (rb : List String) (xs : List String) : List String :=
  xs.foldl ringPush rb

/-- `logRecorder.record` on one complete line: push the capture of the
mixin regexp onto the recent-lines ring, or drop the line. -/
def record (rb : List String) (buf : String) : List String :=
  match mixinLogMatch buf with
  | some payload => ringPush rb payload
  | none => rb

/-- Follows the spec's words (the pattern description of the claim, for
comparison with the matcher derived from the source regexp): the line
consists of three bracketed segments — bodies free of `]`, separated by
whitespace, the third starting with the literal `mixin/` — then a colon,
whitespace, and a non-empty single-line payload. -/
def MixinShape (line payload : List Char) : Prop :=
  ∃ t1 w1 t2 w2 t3 w3,
    line =
      '[' :: (t1 ++ ']' :: (w1 ++ '[' :: (t2 ++ ']' :: (w2 ++ '[' ::
        ("mixin/".toList ++ t3 ++ ']' :: ':' :: (w3 ++ payload))))))
    ∧ ']' ∉ t1 ∧ ']' ∉ t2 ∧ ']' ∉ t3
    ∧ (∀ c ∈ w1, isGoSpace c = true) ∧ (∀ c ∈ w2, isGoSpace c = true)
    ∧ (∀ c ∈ w3, isGoSpace c = true)
    ∧ payload ≠ [] ∧ '\n' ∉ payload

theorem goAppend_sliceList (m : GoSlice) (x : SolutionPossibility) :
    sliceList (goAppend m x) = sliceList m ++ [x] := by
  cases m <;> simp [goAppend, sliceList]

theorem doErrorLoop_toList (lineMatchPercent : String → String → ℚ)
    (jerr : JavaError) :
    ∀ (es : List ErrorDesc) (m : GoSlice),
      sliceList (doErrorLoop lineMatchPercent jerr es m) =
        sliceList m ++
          ((es.map fun e =>
              SolutionPossibility.mk e (scoreOf lineMatchPercent jerr e)).filter
            fun sol => decide (sol.Match ≠ 0)) := by
  intro es
  induction es with
  | nil => intro m; simp [doErrorLoop]
  | cons e es ih =>
    intro m
    by_cases hs : scoreOf lineMatchPercent jerr e = 0
    · simp [doErrorLoop, hs, ih]
    · simp [doErrorLoop, hs, ih, goAppend_sliceList]

theorem doError_err_none (lineMatchPercent : String → String → ℚ)
    (hardCodedChecks : JavaError → Option ErrorDesc × Option String)
    (cachedErrors : List ErrorDesc) (jerr : JavaError) :
    (doError lineMatchPercent hardCodedChecks cachedErrors jerr).2 = none := by
  unfold doError
  cases (hardCodedChecks jerr).1 with
  | some e => rfl
  | none =>
    cases doErrorLoop lineMatchPercent jerr cachedErrors none <;> rfl

/-- C1: for a signature with a non-empty message template, the score
computed by `DoError` (the candidate's `Match` value) is the overlap score
returned by the line-matching collaborator exactly when the signature's
final key segment is empty or `*`; otherwise, when the final segments
agree, it is 0.10 + overlap * 0.90 on a package match (or wildcard
signature package) and 0.05 + overlap * 0.90 on a package mismatch. -/
theorem c1_score_with_template (lineMatchPercent : String → String → ℚ)
    (jerr : JavaError) (e : ErrorDesc) (hmsg : e.Message ≠ "") :
    (((rsplit e.Error '.').2 = "" ∨ (rsplit e.Error '.').2 = "*") →
      scoreOf lineMatchPercent jerr e =
        lineMatchPercent (split jerr.Message '\n').1 e.Message)
  ∧ (¬((rsplit e.Error '.').2 = "" ∨ (rsplit e.Error '.').2 = "*") →
      (rsplit e.Error '.').2 = (rsplit jerr.Class '.').2 →
      scoreOf lineMatchPercent jerr e =
        (if (rsplit e.Error '.').1 = "*" ∨
            (rsplit jerr.Class '.').1 = (rsplit e.Error '.').1
          then (1 : ℚ) / 10 else 1 / 20)
        + lineMatchPercent (split jerr.Message '\n').1 e.Message * (9 / 10)) := by
  constructor
  · intro hty
    simp [scoreOf, hmsg, hty]
  · intro hty heq
    rw [heq] at hty
    push_neg at hty
    obtain ⟨h1, h2⟩ := hty
    simp [scoreOf, hmsg, heq, h1, h2]

/-- C1 witness: the spec's end-to-end shape with a concrete matching
class: overlap 4/5 gives 1/10 + (4/5)(9/10) = 41/50 = 0.82. -/
theorem c1_witness :
    scoreOf (fun _ _ => (4 : ℚ) / 5)
      (JavaError.mk "com.example.Foo" "Could not load class\nat ..." none)
      ⟨"com.example.Foo", "Could not load class"⟩ = 41 / 50 := by
  have h := (c1_score_with_template (fun _ _ => (4 : ℚ) / 5)
      (JavaError.mk "com.example.Foo" "Could not load class\nat ..." none)
      ⟨"com.example.Foo", "Could not load class"⟩ (by decide)).2
      (by decide) (by decide)
  rw [h, if_pos (by decide)]
  norm_num

/-- C2 counterexample: signature key `*` against error class `*` — the
message template is empty, the final segments are equal and the package
prefixes are equal (both empty), so the claim requires score 1.0; the code
treats a `*` final segment as ignoreType, leaving the type component 0, and
the empty-template rescaling yields 0. -/
theorem c2_counterexample :
    (⟨"*", ""⟩ : ErrorDesc).Message = ""
  ∧ (rsplit (⟨"*", ""⟩ : ErrorDesc).Error '.').2 =
      (rsplit (JavaError.mk "*" "" none).Class '.').2
  ∧ (rsplit (⟨"*", ""⟩ : ErrorDesc).Error '.').1 =
      (rsplit (JavaError.mk "*" "" none).Class '.').1
  ∧ scoreOf (fun _ _ => 0) (JavaError.mk "*" "" none) ⟨"*", ""⟩ = 0
  ∧ (0 : ℚ) ≠ 1 := by
  refine ⟨rfl, rfl, rfl, ?_, by norm_num⟩
  simp only [scoreOf]
  rw [if_pos (by decide), if_neg (by decide)]
  norm_num

/-- C2 (amended): for a signature with empty message template whose final
key segment is neither empty nor `*` and equals the error's final segment,
the score is 1.0 when the package prefixes are equal or the signature's
package prefix is `*`, and 0.5 otherwise. -/
theorem c2_amended_empty_template (lineMatchPercent : String → String → ℚ)
    (jerr : JavaError) (e : ErrorDesc) (hmsg : e.Message = "")
    (hty : ¬((rsplit e.Error '.').2 = "" ∨ (rsplit e.Error '.').2 = "*"))
    (heq : (rsplit e.Error '.').2 = (rsplit jerr.Class '.').2) :
    scoreOf lineMatchPercent jerr e =
      if (rsplit e.Error '.').1 = "*" ∨
          (rsplit jerr.Class '.').1 = (rsplit e.Error '.').1
      then (1 : ℚ) else 1 / 2 := by
  rw [heq] at hty
  push_neg at hty
  obtain ⟨h1, h2⟩ := hty
  simp only [scoreOf, hmsg, heq]
  rw [if_pos trivial, if_pos (And.intro (by simp [h1, h2]) trivial)]
  split <;> norm_num

/-- C2 witness: concrete exact class-and-package match with empty template
scores 1.0. -/
theorem c2_witness :
    scoreOf (fun _ _ => 0) (JavaError.mk "com.example.Foo" "msg" none)
      ⟨"com.example.Foo", ""⟩ = 1 := by
  have h := c2_amended_empty_template (fun _ _ => 0)
      (JavaError.mk "com.example.Foo" "msg" none)
      ⟨"com.example.Foo", ""⟩ rfl (by decide) (by decide)
  rw [h, if_pos (by decide)]

/-- C3 counterexample: before any successful refresh and with a failing
repository, `getErrors` does not fail at all — it has no error result —
and returns the empty (nil) cached signature set, leaving the store
never-loaded. The claimed `NotYetLoaded` failure does not exist: the error
of the locked refresh is discarded. -/
theorem c3_counterexample :
    (getErrors 5 (Except.error "network down") ⟨none, [], 0⟩).1 = []
  ∧ (getErrors 5 (Except.error "network down") ⟨none, [], 0⟩).2.lastUpdateErr
      = none := ⟨rfl, rfl⟩

/-- C3 (amended): before the very first successful refresh, if the refresh
attempt triggered by `get()` also fails, `get()` silently discards the
refresh error and returns the unchanged — hence empty/nil — cached
signature set; no `NotYetLoaded` error exists in the code. -/
theorem c3_amended_get_returns_stale (now : ℕ) (err : String) (s : StoreState)
    (h : s.lastUpdateErr = none) :
    (getErrors now (Except.error err) s).1 = s.cachedErrors
  ∧ (getErrors now (Except.error err) s).2.lastUpdateErr = none
  ∧ (getErrors now (Except.error err) s).2.cachedErrors = s.cachedErrors := by
  obtain ⟨lu, ce, fc⟩ := s
  cases h
  simp [getErrors, lockedRefreshCheck, needUpdate, updateErrorsLocked]

/-- C3 witness: a concrete never-loaded store with a failing repository. -/
theorem c3_witness :
    ((⟨none, [], 0⟩ : StoreState).lastUpdateErr = none)
  ∧ ((getErrors 9 (Except.error "boom") ⟨none, [], 0⟩).1
        = (⟨none, [], 0⟩ : StoreState).cachedErrors
    ∧ (getErrors 9 (Except.error "boom") ⟨none, [], 0⟩).2.lastUpdateErr = none
    ∧ (getErrors 9 (Except.error "boom") ⟨none, [], 0⟩).2.cachedErrors
        = (⟨none, [], 0⟩ : StoreState).cachedErrors) :=
  ⟨rfl, c3_amended_get_returns_stale 9 "boom" ⟨none, [], 0⟩ rfl⟩

/-- C6: when the repository collaborator errors, `updateErrorsLocked`
returns that failure and leaves both the cached signature set and the
last-successful-refresh timestamp unchanged. -/
theorem c6_refresh_failure_keeps_cache (now : ℕ) (errMsg : String)
    (s : StoreState) :
    (updateErrorsLocked now (Except.error errMsg) s).1 = some errMsg
  ∧ (updateErrorsLocked now (Except.error errMsg) s).2.cachedErrors
      = s.cachedErrors
  ∧ (updateErrorsLocked now (Except.error errMsg) s).2.lastUpdateErr
      = s.lastUpdateErr := ⟨rfl, rfl, rfl⟩

theorem runGetters_fresh (db : ErrDB) (now : ℕ) :
    ∀ (n : ℕ) (s : StoreState), s.lastUpdateErr = some now →
      runGetters now db n s = s := by
  intro n
  induction n with
  | zero => intro s _; rfl
  | succ n ih =>
    intro s h
    have hnu : needUpdate now s = false := by
      simp [needUpdate, h]
    show runGetters now db n (lockedRefreshCheck now db s) = s
    rw [lockedRefreshCheck, hnu]
    exact ih s h

/-- C7 counterexample: two `get()` callers while never loaded, with a
failing repository: the first refresh fails, the store stays never-loaded,
and the second caller's re-check under the exclusive lock triggers a second
repository fetch — more than the claimed single refresh. -/
theorem c7_counterexample :
    (runGetters 0 (Except.error "boom") 2 ⟨none, [], 0⟩).fetchCount = 2
  ∧ ¬((runGetters 0 (Except.error "boom") 2 ⟨none, [], 0⟩).fetchCount ≤ 1) := by
  constructor <;> decide

/-- C7 (amended): when the repository fetch succeeds, any number of
`get()` callers issued at one instant on a stale store (never loaded, or
last refreshed more than an hour ago) perform at most one underlying
refresh: the first locked caller refreshes and stamps the store fresh, and
every later caller's re-check under the exclusive lock skips. -/
theorem c7_amended_single_refresh (l c0 : List ErrorDesc) (lu : Option ℕ)
    (now n : ℕ)
    (h : lu = none ∨ ∃ t0, lu = some t0 ∧ t0 + 3600 < now) :
    (runGetters now (Except.ok l) n ⟨lu, c0, 0⟩).fetchCount ≤ 1 := by
  cases n with
  | zero => exact Nat.zero_le 1
  | succ n =>
    have h1 : lockedRefreshCheck now (Except.ok l) ⟨lu, c0, 0⟩
        = ⟨some now, l, 1⟩ := by
      rcases h with h | ⟨t0, h, ht⟩
      · subst h
        simp [lockedRefreshCheck, needUpdate, updateErrorsLocked]
      · subst h
        simp [lockedRefreshCheck, needUpdate, updateErrorsLocked, ht]
    show (runGetters now (Except.ok l) n
        (lockedRefreshCheck now (Except.ok l) ⟨lu, c0, 0⟩)).fetchCount ≤ 1
    rw [h1, runGetters_fresh (Except.ok l) now n ⟨some now, l, 1⟩ rfl]

/-- C7 witness: three concurrent callers on a never-loaded store with a
succeeding repository fetch just once. -/
theorem c7_witness :
    (runGetters 7 (Except.ok [⟨"a.B", "m"⟩]) 3 ⟨none, [], 0⟩).fetchCount ≤ 1 :=
  c7_amended_single_refresh [⟨"a.B", "m"⟩] [] none 7 3 (Or.inl rfl)

theorem processChain_snd_none (lineMatchPercent : String → String → ℚ)
    (hardCodedChecks : JavaError → Option ErrorDesc × Option String)
    (cachedErrors : List ErrorDesc) :
    ∀ jerr : JavaError,
      (processChain lineMatchPercent hardCodedChecks cachedErrors jerr).2
        = none
  | .mk c m none => by
    have hd := doError_err_none lineMatchPercent hardCodedChecks cachedErrors
      (.mk c m none)
    simp only [processChain, hd]
  | .mk c m (some j2) => by
    have hd := doError_err_none lineMatchPercent hardCodedChecks cachedErrors
      (.mk c m (some j2))
    have ih := processChain_snd_none lineMatchPercent hardCodedChecks
      cachedErrors j2
    simp only [processChain, hd]
    exact ih

theorem processChain_map_chain (lineMatchPercent : String → String → ℚ)
    (hardCodedChecks : JavaError → Option ErrorDesc × Option String)
    (cachedErrors : List ErrorDesc) :
    ∀ jerr : JavaError,
      ((processChain lineMatchPercent hardCodedChecks cachedErrors jerr).1).map
          ErrorResult.Error
        = chainList jerr
  | .mk c m none => by
    have hd := doError_err_none lineMatchPercent hardCodedChecks cachedErrors
      (.mk c m none)
    simp only [processChain, hd]
    rfl
  | .mk c m (some j2) => by
    have hd := doError_err_none lineMatchPercent hardCodedChecks cachedErrors
      (.mk c m (some j2))
    have ih := processChain_map_chain lineMatchPercent hardCodedChecks
      cachedErrors j2
    simp only [processChain, hd]
    simp [chainList, ErrorResult.Error, ih]

/-- C5: on the cancellation-free path, the per-error scoring task emits one
result per error of the cause chain, in outermost-to-innermost order: the
emitted results' errors are exactly the cause chain, so a chain of length n
yields exactly n results. -/
theorem c5_chain_order (lineMatchPercent : String → String → ℚ)
    (hardCodedChecks : JavaError → Option ErrorDesc × Option String)
    (cachedErrors : List ErrorDesc) (jerr : JavaError) :
    ((processChain lineMatchPercent hardCodedChecks cachedErrors jerr).1).map
        ErrorResult.Error = chainList jerr
  ∧ ((processChain lineMatchPercent hardCodedChecks cachedErrors jerr).1).length
        = (chainList jerr).length := by
  have h := processChain_map_chain lineMatchPercent hardCodedChecks
    cachedErrors jerr
  exact ⟨h, by rw [← h, List.length_map]⟩

/-- C10: `DoError` always returns a nil error — the hardcoded check's
error is discarded and `err` is never assigned — so the scoring-task
failure branch of the pipeline (which would cancel the session with the
scoring error as cause) is unreachable: the chain walk never produces a
cancellation cause. -/
theorem c10_scoring_never_fails (lineMatchPercent : String → String → ℚ)
    (hardCodedChecks : JavaError → Option ErrorDesc × Option String)
    (cachedErrors : List ErrorDesc) (jerr : JavaError) :
    (doError lineMatchPercent hardCodedChecks cachedErrors jerr).2 = none
  ∧ (processChain lineMatchPercent hardCodedChecks cachedErrors jerr).2
      = none :=
  ⟨doError_err_none lineMatchPercent hardCodedChecks cachedErrors jerr,
   processChain_snd_none lineMatchPercent hardCodedChecks cachedErrors jerr⟩

/-- C8: the candidate slice `DoError` returns is never the nil slice, and
holds no candidate with score exactly 0: zero-score signatures are dropped
and a nil accumulation is replaced by a fresh empty slice. -/
theorem c8_no_zero_candidates (lineMatchPercent : String → String → ℚ)
    (hardCodedChecks : JavaError → Option ErrorDesc × Option String)
    (cachedErrors : List ErrorDesc) (jerr : JavaError) :
    ∃ l, (doError lineMatchPercent hardCodedChecks cachedErrors jerr).1
        = some l
      ∧ ∀ sol ∈ l, sol.Match ≠ 0 := by
  unfold doError
  cases (hardCodedChecks jerr).1 with
  | some e =>
    refine ⟨[⟨e, 1⟩], rfl, ?_⟩
    intro sol hsol
    rw [List.mem_singleton] at hsol
    subst hsol
    norm_num
  | none =>
    cases hlo : doErrorLoop lineMatchPercent jerr cachedErrors none with
    | none => exact ⟨[], rfl, by intro sol h; cases h⟩
    | some l =>
      refine ⟨l, rfl, ?_⟩
      intro sol hsol
      have ht := doErrorLoop_toList lineMatchPercent jerr cachedErrors none
      rw [hlo] at ht
      simp only [sliceList, Option.getD_some, Option.getD_none,
        List.nil_append] at ht
      rw [ht] at hsol
      have := List.of_mem_filter hsol
      simpa using this

/-- C8 witness: a concrete run of `DoError` through the generic loop. -/
theorem c8_witness :
    ∃ l, (doError (fun _ _ => (1 : ℚ) / 2) (fun _ => (none, none))
          [⟨"a.B", "t"⟩] (JavaError.mk "a.B" "m" none)).1 = some l
      ∧ ∀ sol ∈ l, sol.Match ≠ 0 :=
  c8_no_zero_candidates (fun _ _ => (1 : ℚ) / 2) (fun _ => (none, none))
    [⟨"a.B", "t"⟩] (JavaError.mk "a.B" "m" none)

/-- C4: the claimed closing discipline fails on the code. After one
scoring task is spawned and has computed its result, the tokenizer error
branch makes the main goroutine `cancel(err)` and `return`, running the
deferred `close(result)` without `wg.Wait()`: the channel is closed while
the task has neither completed nor observed cancellation, and the task's
pending send then lands on the closed channel (a Go panic). -/
theorem c4_close_before_tasks_settled :
    ¬ closedAfterSettled
        (runPipe pipeInit [PipeStep.recvError, PipeStep.recvTokErr])
  ∧ ¬ noSendOnClosed
        (runPipe pipeInit
          [PipeStep.recvError, PipeStep.recvTokErr, PipeStep.taskSend 0]) := by
  unfold closedAfterSettled noSendOnClosed
  decide

theorem expectChar_eq_some {c : Char} {l r : List Char}
    (h : expectChar c l = some r) : l = c :: r := by
  cases l with
  | nil => cases h
  | cons x xs =>
    by_cases hx : x = c
    · subst hx
      rw [show expectChar x (x :: xs) = some xs by simp [expectChar]] at h
      injection h with h2
      rw [h2]
    · rw [show expectChar c (x :: xs) = none by simp [expectChar, hx]] at h
      cases h

theorem expectChar_cons_self (c : Char) (r : List Char) :
    expectChar c (c :: r) = some r := by
  simp [expectChar]

theorem takeToRBracket_eq_some :
    ∀ {l t r : List Char}, takeToRBracket l = some (t, r) →
      l = t ++ ']' :: r ∧ ']' ∉ t := by
  intro l
  induction l with
  | nil => intro t r h; cases h
  | cons x xs ih =>
    intro t r h
    by_cases hx : x = ']'
    · subst hx
      rw [show takeToRBracket (']' :: xs) = some ([], xs) by
        simp [takeToRBracket]] at h
      injection h with h2
      cases h2
      exact ⟨rfl, List.not_mem_nil ']'⟩
    · cases hxs : takeToRBracket xs with
      | none =>
        rw [show takeToRBracket (x :: xs) = none by
          simp [takeToRBracket, hx, hxs]] at h
        cases h
      | some pq =>
        obtain ⟨p, q⟩ := pq
        rw [show takeToRBracket (x :: xs) = some (x :: p, q) by
          simp [takeToRBracket, hx, hxs]] at h
        injection h with h2
        cases h2
        obtain ⟨hxe, hnp⟩ := ih hxs
        subst hxe
        refine ⟨rfl, ?_⟩
        intro hm
        rcases List.mem_cons.mp hm with hm | hm
        · exact hx hm.symm
        · exact hnp hm

theorem takeToRBracket_append (t : List Char) {r : List Char}
    (h : ']' ∉ t) : takeToRBracket (t ++ ']' :: r) = some (t, r) := by
  induction t with
  | nil => simp [takeToRBracket]
  | cons x xs ih =>
    have hx : x ≠ ']' := fun he => h (he ▸ List.mem_cons_self x xs)
    have hxs : ']' ∉ xs := fun hm => h (List.mem_cons_of_mem x hm)
    simp [takeToRBracket, hx, ih hxs]

theorem expectLit_eq_some :
    ∀ {p l r : List Char}, expectLit p l = some r → l = p ++ r := by
  intro p
  induction p with
  | nil =>
    intro l r h
    injection h
  | cons y ys ih =>
    intro l r h
    cases l with
    | nil => cases h
    | cons x xs =>
      by_cases hx : x = y
      · subst hx
        rw [show expectLit (x :: ys) (x :: xs) = expectLit ys xs by
          simp [expectLit]] at h
        rw [List.cons_append, ih h]
      · rw [show expectLit (y :: ys) (x :: xs) = none by
          simp [expectLit, hx]] at h
        cases h

theorem expectLit_self : ∀ (p r : List Char), expectLit p (p ++ r) = some r := by
  intro p
  induction p with
  | nil => intro r; rfl
  | cons y ys ih => intro r; simp [expectLit, ih r]

theorem dropWhile_append_all {q : Char → Bool} :
    ∀ {w r : List Char}, (∀ c ∈ w, q c = true) →
      (w ++ r).dropWhile q = r.dropWhile q := by
  intro w
  induction w with
  | nil => intro r _; rfl
  | cons x xs ih =>
    intro r hw
    have hx : q x = true := hw x (List.mem_cons_self x xs)
    rw [List.cons_append, List.dropWhile_cons_of_pos hx]
    exact ih fun c hc => hw c (List.mem_cons_of_mem x hc)

theorem dropWhile_head_neg {q : Char → Bool} {p : List Char}
    (hp : p ≠ []) (hh : q p.headI = false) : p.dropWhile q = p := by
  cases p with
  | nil => cases hp rfl
  | cons c p' =>
    simp only [List.headI] at hh
    exact List.dropWhile_cons_of_neg (by rw [hh]; exact Bool.false_ne_true)

theorem capturePayload_eq_some {t p : List Char}
    (h : capturePayload t = some p) :
    ∃ w, t = w ++ p ∧ (∀ c ∈ w, isGoSpace c = true) ∧ p ≠ [] ∧ '\n' ∉ p := by
  unfold capturePayload at h
  by_cases hqe : t.dropWhile isGoSpace = []
  · rw [if_pos hqe] at h
    cases hgl : t.getLast? with
    | none => rw [hgl] at h; cases h
    | some ch =>
      rw [hgl] at h
      dsimp only at h
      by_cases hch : ch = '\n'
      · rw [if_pos hch] at h; cases h
      · rw [if_neg hch] at h
        injection h with h2
        subst h2
        have htne : t ≠ [] := by
          intro he
          rw [he] at hgl
          cases hgl
        have hlast : t.getLast htne = ch := by
          have hx := List.getLast?_eq_getLast_of_ne_nil htne
          rw [hgl] at hx
          exact (Option.some.inj hx).symm
        have hall : ∀ x ∈ t, isGoSpace x = true := by
          intro x hx
          exact List.dropWhile_eq_nil_iff.mp hqe x hx
        refine ⟨t.dropLast, ?_, ?_, by simp, ?_⟩
        · rw [← hlast]
          exact (List.dropLast_append_getLast htne).symm
        · intro c hc
          exact hall c (List.dropLast_subset t hc)
        · intro hm
          rw [List.mem_singleton] at hm
          exact hch hm.symm
  · rw [if_neg hqe] at h
    by_cases hcn : '\n' ∈ t.dropWhile isGoSpace
    · rw [if_pos hcn] at h; cases h
    · rw [if_neg hcn] at h
      injection h with h2
      subst h2
      refine ⟨t.takeWhile isGoSpace, ?_, ?_, hqe, hcn⟩
      · exact (List.takeWhile_append_dropWhile isGoSpace t).symm
      · intro c hc
        exact List.mem_takeWhile_imp hc

theorem capturePayload_of_shape {w p : List Char}
    (hw : ∀ c ∈ w, isGoSpace c = true) (hp : p ≠ []) (hn : '\n' ∉ p)
    (hh : isGoSpace p.headI = false) : capturePayload (w ++ p) = some p := by
  have hdp : (w ++ p).dropWhile isGoSpace = p := by
    rw [dropWhile_append_all hw, dropWhile_head_neg hp hh]
  unfold capturePayload
  rw [hdp, if_neg hp, if_neg hn]

theorem mixinMatchL_shape {l p : List Char} (h : mixinMatchL l = some p) :
    MixinShape l p := by
  simp only [mixinMatchL, bind, Option.bind_eq_some] at h
  obtain ⟨r1, h1, h⟩ := h
  obtain ⟨⟨t1, r2⟩, h2, h⟩ := h
  obtain ⟨r3, h3, h⟩ := h
  obtain ⟨⟨t2, r4⟩, h4, h⟩ := h
  obtain ⟨r5, h5, h⟩ := h
  obtain ⟨r6, h6, h⟩ := h
  obtain ⟨⟨t3, r7⟩, h7, h⟩ := h
  obtain ⟨r8, h8, hcap⟩ := h
  dsimp only at h3 h5 h8
  have e1 := expectChar_eq_some h1
  obtain ⟨e2, ht1⟩ := takeToRBracket_eq_some h2
  have e3 := expectChar_eq_some h3
  obtain ⟨e4, ht2⟩ := takeToRBracket_eq_some h4
  have e5 := expectChar_eq_some h5
  have e6 := expectLit_eq_some h6
  obtain ⟨e7, ht3⟩ := takeToRBracket_eq_some h7
  have e8 := expectChar_eq_some h8
  obtain ⟨w3, e9, hw3, hpne, hpn⟩ := capturePayload_eq_some hcap
  set w1 := r2.takeWhile isGoSpace with hw1def
  set w2 := r4.takeWhile isGoSpace with hw2def
  have hr2 : r2 = w1 ++ '[' :: r3 := by
    conv_lhs => rw [← List.takeWhile_append_dropWhile isGoSpace r2]
    rw [e3]
  have hr4 : r4 = w2 ++ '[' :: r5 := by
    conv_lhs => rw [← List.takeWhile_append_dropWhile isGoSpace r4]
    rw [e5]
  refine ⟨t1, w1, t2, w2, t3, w3,
    ?_, ht1, ht2, ht3,
    fun c hc => List.mem_takeWhile_imp hc,
    fun c hc => List.mem_takeWhile_imp hc, hw3, hpne, hpn⟩
  rw [e1, e2, hr2, e4, hr4, e6, e7, e8, e9]
  simp [List.append_assoc]

theorem mixinMatchL_of_shape (t1 w1 t2 w2 t3 w3 p : List Char)
    (ht1 : ']' ∉ t1) (ht2 : ']' ∉ t2) (ht3 : ']' ∉ t3)
    (hw1 : ∀ c ∈ w1, isGoSpace c = true) (hw2 : ∀ c ∈ w2, isGoSpace c = true)
    (hw3 : ∀ c ∈ w3, isGoSpace c = true)
    (hp : p ≠ []) (hn : '\n' ∉ p) (hh : isGoSpace p.headI = false) :
    mixinMatchL
      ('[' :: (t1 ++ ']' :: (w1 ++ '[' :: (t2 ++ ']' :: (w2 ++ '[' ::
        ("mixin/".toList ++ t3 ++ ']' :: ':' :: (w3 ++ p))))))) = some p := by
  have hbrne : ¬ isGoSpace '[' = true := by decide
  have hd1 : (w1 ++ '[' :: (t2 ++ ']' :: (w2 ++ '[' ::
      ("mixin/".toList ++ t3 ++ ']' :: ':' :: (w3 ++ p))))).dropWhile
        isGoSpace
      = '[' :: (t2 ++ ']' :: (w2 ++ '[' ::
        ("mixin/".toList ++ t3 ++ ']' :: ':' :: (w3 ++ p)))) := by
    rw [dropWhile_append_all hw1, List.dropWhile_cons_of_neg hbrne]
  have hd2 : (w2 ++ '[' ::
      ("mixin/".toList ++ t3 ++ ']' :: ':' :: (w3 ++ p))).dropWhile isGoSpace
      = '[' :: ("mixin/".toList ++ t3 ++ ']' :: ':' :: (w3 ++ p)) := by
    rw [dropWhile_append_all hw2, List.dropWhile_cons_of_neg hbrne]
  have hlit : expectLit "mixin/".toList
      ("mixin/".toList ++ t3 ++ ']' :: ':' :: (w3 ++ p))
      = some (t3 ++ ']' :: ':' :: (w3 ++ p)) := by
    rw [List.append_assoc]
    exact expectLit_self "mixin/".toList (t3 ++ ']' :: ':' :: (w3 ++ p))
  simp only [mixinMatchL, bind]
  rw [expectChar_cons_self]
  simp only [Option.some_bind]
  rw [takeToRBracket_append t1 ht1]
  simp only [Option.some_bind]
  rw [hd1, expectChar_cons_self]
  simp only [Option.some_bind]
  rw [takeToRBracket_append t2 ht2]
  simp only [Option.some_bind]
  rw [hd2, expectChar_cons_self]
  simp only [Option.some_bind]
  rw [hlit]
  simp only [Option.some_bind]
  rw [takeToRBracket_append t3 ht3]
  simp only [Option.some_bind]
  rw [expectChar_cons_self]
  simp only [Option.some_bind]
  rw [capturePayload_of_shape hw3 hp hn hh]

theorem ringPushAll_eq :
    ∀ (xs rb : List String), rb.length ≤ 64 →
      ringPushAll rb xs = (rb ++ xs).drop (rb.length + xs.length - 64) := by
  intro xs
  induction xs with
  | nil =>
    intro rb h
    simp [ringPushAll, Nat.sub_eq_zero_of_le h]
  | cons x xs ih =>
    intro rb h
    show ringPushAll (ringPush rb x) xs = _
    by_cases hlt : rb.length < 64
    · have hpush : ringPush rb x = rb ++ [x] := by simp [ringPush, hlt]
      have hlen : (rb ++ [x]).length ≤ 64 := by
        rw [List.length_append, List.length_singleton]
        omega
      rw [hpush, ih _ hlen]
      have e1 : rb ++ [x] ++ xs = rb ++ x :: xs := by simp
      have e2 : (rb ++ [x]).length + xs.length - 64
          = rb.length + (x :: xs).length - 64 := by
        rw [List.length_append, List.length_singleton, List.length_cons]
        omega
      rw [e1, e2]
    · have h64 : rb.length = 64 := le_antisymm h (not_lt.mp hlt)
      cases rb with
      | nil => simp at h64
      | cons a rb' =>
        have h63 : rb'.length = 63 := by
          rw [List.length_cons] at h64
          omega
        have hpush : ringPush (a :: rb') x = rb' ++ [x] := by
          unfold ringPush
          rw [if_neg hlt]
          rfl
        have hlen : (rb' ++ [x]).length ≤ 64 := by
          rw [List.length_append, List.length_singleton]
          omega
        rw [hpush, ih _ hlen]
        have e1 : rb' ++ [x] ++ xs = rb' ++ x :: xs := by simp
        have e2 : (rb' ++ [x]).length + xs.length - 64 = xs.length := by
          rw [List.length_append, List.length_singleton]
          omega
        have e3 : (a :: rb').length + (x :: xs).length - 64 = xs.length + 1 := by
          rw [List.length_cons, List.length_cons]
          omega
        rw [e1, e2, e3]
        show (rb' ++ x :: xs).drop xs.length
            = (a :: (rb' ++ x :: xs)).drop (xs.length + 1)
        rw [List.drop_succ_cons]

/-- C9: `logRecorder.record` pushes onto the recent-lines ring exactly when
the line matches the mixin pattern, and then pushes exactly the captured
payload: a successful match decomposes the line into three bracketed
segments (bodies free of `]`, whitespace-separated, the third starting
with the literal `mixin/`), a colon, whitespace, and the non-empty payload
that is pushed; conversely every such line matches (the head-of-payload
side condition pins the greedy whitespace split). The buffer is a fixed
ring of capacity 64, so pushing 70 lines retains exactly the last 64 in
order. -/
theorem c9_record_mixin_ring :
    (∀ (rb : List String) (line : String),
      (mixinLogMatch line = none → record rb line = rb)
      ∧ ∀ pl, mixinLogMatch line = some pl → record rb line = ringPush rb pl)
  ∧ (∀ l p, mixinMatchL l = some p → MixinShape l p)
  ∧ (∀ t1 w1 t2 w2 t3 w3 p : List Char, ']' ∉ t1 → ']' ∉ t2 → ']' ∉ t3 →
      (∀ c ∈ w1, isGoSpace c = true) → (∀ c ∈ w2, isGoSpace c = true) →
      (∀ c ∈ w3, isGoSpace c = true) → p ≠ [] → '\n' ∉ p →
      isGoSpace p.headI = false →
      mixinMatchL
        ('[' :: (t1 ++ ']' :: (w1 ++ '[' :: (t2 ++ ']' :: (w2 ++ '[' ::
          ("mixin/".toList ++ t3 ++ ']' :: ':' :: (w3 ++ p))))))) = some p)
  ∧ (∀ xs : List String, xs.length = 70 → ringPushAll [] xs = xs.drop 6) := by
  refine ⟨?_, fun l p h => mixinMatchL_shape h,
    fun t1 w1 t2 w2 t3 w3 p h1 h2 h3 h4 h5 h6 h7 h8 h9 =>
      mixinMatchL_of_shape t1 w1 t2 w2 t3 w3 p h1 h2 h3 h4 h5 h6 h7 h8 h9,
    ?_⟩
  · intro rb line
    constructor
    · intro h
      simp [record, h]
    · intro pl h
      simp [record, h]
  · intro xs hlen
    have h := ringPushAll_eq xs [] (by simp)
    rw [hlen] at h
    simpa using h

/-- C9 witness: a concrete matching log line is pushed as its payload; a
concrete match decomposes; a concrete well-shaped line matches; 70 pushed
lines retain the last 64. -/
theorem c9_witness :
    record [] "[09:00] [Thread/INFO] [mixin/core]: Applied mixin"
        = ringPush [] "Applied mixin"
  ∧ MixinShape ("[a][b][mixin/c]: x".toList) ['x']
  ∧ mixinMatchL
      ('[' :: (['a'] ++ ']' :: ([] ++ '[' :: (['b'] ++ ']' :: ([] ++ '[' ::
        ("mixin/".toList ++ ['c'] ++ ']' :: ':' :: ([' '] ++ ['x'])))))))
      = some ['x']
  ∧ ringPushAll [] (List.replicate 70 "ln")
      = (List.replicate 70 "ln").drop 6 := by
  refine ⟨?_, ?_, ?_, ?_⟩
  · exact (c9_record_mixin_ring.1 [] _).2 "Applied mixin" (by decide)
  · exact c9_record_mixin_ring.2.1 _ _ (by decide)
  · exact c9_record_mixin_ring.2.2.1 ['a'] [] ['b'] [] ['c'] [' '] ['x']
      (by decide) (by decide) (by decide) (by decide) (by decide) (by decide)
      (by decide) (by decide) (by decide)
  · exact c9_record_mixin_ring.2.2.2 (List.replicate 70 "ln") (by simp)
